import Mathlib

/-!
Verification of `plot_csv.py`: label normalization, CSV loaders, and the
hover resolver, shallowly embedded over `List Char` / `Rat`.
-/

namespace Dessert

/-! ## Python string primitives (over `List Char`) -/

/-- Whitespace characters removed by Python `str.strip()` (ASCII subset). -/
def pyWS (c : Char) : Bool :=
  c = ' ' || c = '\t' || c = '\n' || c = '\r' || c = '\x0b' || c = '\x0c'

/-- Python `str.strip()`. -/
def pyStrip (l : List Char) : List Char :=
  ((l.dropWhile pyWS).reverse.dropWhile pyWS).reverse

/-- Python `s.split(c, 1)[0]`: the prefix of `l` before the first occurrence
of `c` (the whole list when `c` is absent). -/
def beforeFirst (l : List Char) (c : Char) : List Char :=
  l.takeWhile (fun a => a != c)

/-- Python `s.split(c, 1)[1]`: everything after the first occurrence of `c`
(meaningful when `c` occurs; `[]` otherwise). -/
def afterFirst : List Char → Char → List Char
  | [], _ => []
  | a :: l, c => if a = c then l else afterFirst l c

/-- Python `s.rsplit(c, 1)[0]`: everything before the last occurrence of `c`,
or the whole list when `c` is absent. -/
def beforeLastOrAll (l : List Char) (c : Char) : List Char :=
  if l.contains c then (afterFirst l.reverse c).reverse else l

/-! ## The label normalizer (`normalize` in `read_events`) -/

/-- Line 12 of `plot_csv.py`: `actor = s.split("(", 1)[0].strip()`. -/
def codeActor (s : List Char) : List Char :=
  pyStrip (beforeFirst s '(')

/-- Line 13: `inner = s.split("(", 1)[1].rsplit(")", 1)[0]`. -/
def codeInner (s : List Char) : List Char :=
  beforeLastOrAll (afterFirst s '(') ')'

/-- Line 14: `variant = inner.split("{", 1)[0].split("(", 1)[0].strip()`. -/
def codeVariant (s : List Char) : List Char :=
  pyStrip (beforeFirst (beforeFirst (codeInner s) '\x7b') '(')

/-- Line 18: `head = s.split("{", 1)[0].split("(", 1)[0].strip()`. -/
def codeHead (s : List Char) : List Char :=
  pyStrip (beforeFirst (beforeFirst s '\x7b') '(')

/-- The `for actor in ("Farm", "Mill", "Bakery")` loop (lines 19-22). -/
def fallbackActors (head : List Char) : List (List Char) → List Char
  | [] => head
  | a :: rest =>
    if a.isPrefixOf head ∧ a.length < head.length then a ++ '.' :: head.drop a.length
    else fallbackActors head rest

/-- The fixed recognized-actor tuple `("Farm", "Mill", "Bakery")` (line 19). -/
def actorNames : List (List Char) :=
  ["Farm".data, "Mill".data, "Bakery".data]

/-- Function `normalize` from `read_events` (lines 8-22), over `List Char`.
The early `return` of the actor-dot-variant string is rendered as nested
conditionals. -/
def normalizeCore (label : List Char) : List Char :=
  let s := pyStrip label
  if s.contains '(' ∧ s.contains ')' then
    if codeActor s ≠ [] ∧ codeVariant s ≠ [] then codeActor s ++ '.' :: codeVariant s
    else fallbackActors (codeHead s) actorNames
  else fallbackActors (codeHead s) actorNames

/-- Wrapper for `normalizeCore` on `String`s. -/
def normalize (label : String) : String :=
  String.mk (normalizeCore label.data)

/-! ## Spec-side definitions for the normalizer claims -/

/-- Index of the first occurrence of `c` in `s` (`s.length` when absent). -/
def firstIdx (s : List Char) (c : Char) : Nat :=
  (beforeFirst s c).length

/-- Index of the last occurrence of `c` in `s`. -/
def lastIdx (s : List Char) (c : Char) : Nat :=
  s.length - 1 - firstIdx s.reverse c

/-- Spec reading of `inner`: the substring strictly between the first `(`
and the last `)`. -/
def specInner (s : List Char) : List Char :=
  (s.take (lastIdx s ')')).drop (firstIdx s '(' + 1)

/-- Spec reading of `actor`: the trimmed substring before the first `(`. -/
def specActor (s : List Char) : List Char :=
  pyStrip (beforeFirst s '(')

/-- Spec reading of `variant`: the trimmed portion of `inner` before the
leftmost of its first `{` or first `(`. -/
def specVariant (s : List Char) : List Char :=
  pyStrip ((specInner s).takeWhile (fun c => c != '\x7b' && c != '('))

/-- Spec reading of `head`: the trimmed portion of the string before the
leftmost of its first `{` or first `(`. -/
def specFallbackHead (s : List Char) : List Char :=
  pyStrip (s.takeWhile (fun c => c != '\x7b' && c != '('))

/-- Spec reading of the recognized-actor loop: for each name in order, if
`head` starts with the name and is strictly longer, produce the name, a dot,
and the rest of `head`; otherwise `head` unchanged. -/
def specRecognized (head : List Char) : List (List Char) → List Char
  | [] => head
  | name :: rest =>
    if name.isPrefixOf head ∧ name.length < head.length then name ++ '.' :: head.drop name.length
    else specRecognized head rest

/-! ## Numeric field parsing

Python `float()` / `int()` are library collaborators; they are modelled on
optionally signed plain decimal input, with every other input failing
(raising, i.e. `none`). -/

def isDigit (c : Char) : Bool :=
  '0' ≤ c && c ≤ '9'

def digitsVal (l : List Char) : Nat :=
  l.foldl (fun acc c => acc * 10 + (c.toNat - '0'.toNat)) 0

/-- Models Python `int(s)`. -/
def pyInt? (s : String) : Option Int :=
  let core := fun (ds : List Char) =>
    if ds ≠ [] ∧ ds.all isDigit then some ((digitsVal ds : Int)) else none
  match pyStrip s.data with
  | '-' :: ds => (core ds).map (fun v => -v)
  | '+' :: ds => core ds
  | ds => core ds

/-- Models Python `float(s)` with an optional fractional part. -/
def pyFloat? (s : String) : Option Rat :=
  let core := fun (ds : List Char) =>
    let ip := ds.takeWhile (fun c => c != '.')
    if ip.length = ds.length then
      if ds ≠ [] ∧ ds.all isDigit then some (mkRat (digitsVal ds) 1) else none
    else
      let fp := afterFirst ds '.'
      if (ip ≠ [] ∨ fp ≠ []) ∧ ip.all isDigit ∧ fp.all isDigit ∧ !fp.contains '.' then
        some (mkRat (digitsVal ip * 10 ^ fp.length + digitsVal fp) (10 ^ fp.length))
      else none
  match pyStrip s.data with
  | '-' :: ds => (core ds).map (fun v => -v)
  | '+' :: ds => core ds
  | ds => core ds

/-! ## The main-trace loader (`main`, lines 54-66) -/

structure TraceRow where
  months : String
  wheat : String
  flour : String
  bread : String
deriving DecidableEq

structure TraceData where
  months : List Rat
  wheat : List Int
  flour : List Int
  bread : List Int
deriving DecidableEq

/-- One iteration of the row loop (lines 61-66): all four fields must parse,
any failure drops the whole row, successes append to four parallel lists. -/
def loadTraceStep (acc : TraceData) (row : TraceRow) : TraceData :=
  match pyFloat? row.months, pyInt? row.wheat, pyInt? row.flour, pyInt? row.bread with
  | some t, some w, some fl, some br =>
    ⟨acc.months ++ [t], acc.wheat ++ [w], acc.flour ++ [fl], acc.bread ++ [br]⟩
  | _, _, _, _ => acc

/-- The row loop of `main`. -/
def loadTrace (rows : List TraceRow) : TraceData :=
  rows.foldl loadTraceStep ⟨[], [], [], []⟩

/-- Spec: a row is kept iff `months` parses as a float and `wheat`, `flour`,
`bread` all parse as integers. -/
def parseTraceRow (row : TraceRow) : Option (Rat × Int × Int × Int) :=
  match pyFloat? row.months, pyInt? row.wheat, pyInt? row.flour, pyInt? row.bread with
  | some t, some w, some fl, some br => some (t, w, fl, br)
  | _, _, _, _ => none

/-- Spec: the kept rows, in original CSV row order. -/
def traceSamples (rows : List TraceRow) : List (Rat × Int × Int × Int) :=
  rows.filterMap parseTraceRow

/-- Five trace rows of which the third is malformed (`wheat` not an int). -/
def exampleTraceRows : List TraceRow :=
  [⟨"0", "10", "5", "2"⟩, ⟨"1", "11", "6", "3"⟩, ⟨"2", "oops", "7", "4"⟩,
   ⟨"3", "13", "8", "5"⟩, ⟨"4", "14", "9", "6"⟩]

/-! ## The events loader (`read_events`, lines 24-42) -/

/-- One parsed CSV row of the events file: the `months` and `event` cells plus
any extra unnamed trailing cells (`row.get(None)` under `csv.DictReader`). -/
structure EventRow where
  months : String
  event : String
  extras : List String
deriving DecidableEq

/-- Label assembly (lines 33-37): when extras are present they are comma-joined
onto the event field; the result is stripped. -/
def rowLabel (row : EventRow) : List Char :=
  pyStrip (if row.extras ≠ [] then (String.intercalate "," (row.event :: row.extras)).data
           else row.event.data)

/-- The normalized key of a row (line 40). -/
def rowKey (row : EventRow) : String :=
  String.mk (normalizeCore (rowLabel row))

/-- Python `times_by_label.setdefault(key, []).append(t)` over an
insertion-ordered association list (Python dicts preserve insertion order). -/
def insertTime (m : List (String × List Rat)) (k : String) (t : Rat) :
    List (String × List Rat) :=
  match m with
  | [] => [(k, [t])]
  | (k₀, ts) :: rest => if k₀ = k then (k₀, ts ++ [t]) :: rest else (k₀, ts) :: insertTime rest k t

/-- One iteration of the `read_events` row loop: a row whose `months` fails to
parse is dropped silently; otherwise its time is appended under its key. -/
def readEventsStep (m : List (String × List Rat)) (row : EventRow) :
    List (String × List Rat) :=
  match pyFloat? row.months with
  | none => m
  | some t => insertTime m (rowKey row) t

/-- The `read_events` row loop over an already header-validated file. -/
def readEventsRows (rows : List EventRow) : List (String × List Rat) :=
  rows.foldl readEventsStep []

/-- Association-list lookup (Python `times_by_label[key]`). -/
def lookupTimes : List (String × List Rat) → String → Option (List Rat)
  | [], _ => none
  | (k₀, ts) :: rest, k => if k₀ = k then some ts else lookupTimes rest k

/-- Spec: the occurrence times, in CSV row order, of the rows whose `months`
parses as a float and whose normalized label is `k`. -/
def eventTimes (rows : List EventRow) (k : String) : List Rat :=
  rows.filterMap (fun row =>
    match pyFloat? row.months with
    | none => none
    | some t => if rowKey row = k then some t else none)

/-- Events rows with a duplicate label/time pair and one unparsable row. -/
def exampleEventRows : List EventRow :=
  [⟨"1.0", "Farm(Sow\x7b\x7d)", []⟩, ⟨"bad", "Farm(Sow\x7b\x7d)", []⟩,
   ⟨"1.0", "Farm(Sow\x7b\x7d)", []⟩]

/-! ## The hover resolver (`on_move`, lines 116-177)

The rendering library is an external collaborator: the result of
`ln.contains(event)` for the current motion event is carried as data on each
artifact (`Probe.hit` and the `info["ind"]` list; an exception inside
`contains` is line 142/168's `hit = False`). -/

/-- Result of `ln.contains(event)` for one series: the hit flag and the
`info.get("ind", [])` index list. -/
structure Probe where
  hit : Bool
  inds : List Nat
deriving DecidableEq

/-- One plotted data series (`Line2D`): display label, x/y data arrays, and
this event's probe result. -/
structure SeriesView where
  label : String
  xd : List Rat
  yd : List Int
  probe : Probe
deriving DecidableEq

/-- One event marker (`hover_events` entry, line 106): this event's hit flag,
the normalized label, and the marker time. -/
structure MarkerView where
  hit : Bool
  label : String
  t : Rat
deriving DecidableEq

/-- The single shared tooltip (`annot`): visibility, anchor, text. -/
structure Annot where
  visible : Bool
  xy : Rat × Rat
  text : String
deriving DecidableEq

/-- A pointer-motion event: whether it is inside the axes and its data-space
coordinates. -/
structure MoveEvent where
  inaxes : Bool
  xdata : Rat
  ydata : Rat
deriving DecidableEq

/-- Three-decimal fixed-point rendering of `q`, rounding half to even,
modelling Python `f"{x:.3f}"` (digit arithmetic only, no `Rat` ops). -/
def fmt3 (q : Rat) : String :=
  let num := q.num * 1000
  let den : Int := (q.den : Int)
  let fl := num.fdiv den
  let r := num.fmod den
  let n : Int :=
    if den < 2 * r then fl + 1
    else if 2 * r < den then fl
    else if fl % 2 = 0 then fl else fl + 1
  let sign := if n < 0 then "-" else ""
  let a := n.natAbs
  let fp := a % 1000
  let fpStr := if fp < 10 then "00" ++ toString fp
               else if fp < 100 then "0" ++ toString fp
               else toString fp
  sign ++ toString (a / 1000) ++ "." ++ fpStr

/-- Python `bisect.bisect_left` (binary search, the standard `lo/hi` loop with
fuel; `a.getD` stands for Python indexing). -/
def bisectLoop (a : List Rat) (x : Rat) : Nat → Nat → Nat → Nat
  | 0, lo, _ => lo
  | fuel + 1, lo, hi =>
    if lo < hi then
      let mid := (lo + hi) / 2
      if a.getD mid 0 < x then bisectLoop a x fuel (mid + 1) hi
      else bisectLoop a x fuel lo mid
    else lo

def bisectLeft (a : List Rat) (x : Rat) : Nat :=
  bisectLoop a x a.length 0 a.length

/-- The sample index used on a series hit (lines 147-157): the first entry of
the hit-test facility's `ind` list when non-empty, otherwise
`max(0, min(len(xd) - 1, bisect_left(xd, event.xdata)))`. -/
def hitIndex (s : SeriesView) (ev : MoveEvent) : Nat :=
  match s.probe.inds with
  | i :: _ => i
  | [] => if s.xd.length = 0 then 0 else min (s.xd.length - 1) (bisectLeft s.xd ev.xdata)

/-- Embedding of `update_annot` (lines 127-130) applied to the hit series:
anchor at the sample's `(t, value)` with the series label, the value, and the
time rendered to three decimals. -/
def seriesAnnot (s : SeriesView) (ev : MoveEvent) : Annot :=
  let ind := hitIndex s ev
  let x := s.xd.getD ind 0
  let y := s.yd.getD ind 0
  { visible := true, xy := (x, (y : Rat)),
    text := s.label ++ ": " ++ toString y ++ "\n@ t=" ++ fmt3 x }

/-- The marker branch's tooltip (lines 170-172): anchored at the raw pointer
coordinates, showing the label and the marker time to three decimals. -/
def markerAnnot (m : MarkerView) (ev : MoveEvent) : Annot :=
  { visible := true, xy := (ev.xdata, ev.ydata), text := m.label ++ "\n@ t=" ++ fmt3 m.t }

/-- The `for ln in lines` loop stops at the first hit series (line 144). -/
def firstSeriesHit (lines : List SeriesView) : Option SeriesView :=
  lines.find? (fun s => s.probe.hit)

/-- The `for ln, label, t in hover_events` loop stops at the first hit
marker (line 169). -/
def firstMarkerHit (markers : List MarkerView) : Option MarkerView :=
  markers.find? (fun m => m.hit)

/-- Embedding of `on_move` (lines 132-177): the returned pair is the tooltip
state after the event and whether `draw_idle` was called. -/
def onMove (ev : MoveEvent) (lines : List SeriesView) (markers : List MarkerView)
    (annot : Annot) : Annot × Bool :=
  if ev.inaxes = false then
    if annot.visible then ({ annot with visible := false }, true) else (annot, false)
  else
    match firstSeriesHit lines with
    | some s => (seriesAnnot s ev, true)
    | none =>
      match firstMarkerHit markers with
      | some m => (markerAnnot m ev, true)
      | none =>
        if annot.visible then ({ annot with visible := false }, true) else (annot, false)

/-- The `lines` list of `main` (lines 76-86): built in the fixed order Wheat,
Flour, Bread over the loaded trace arrays, and empty when `months` is empty. -/
def mainLines (td : TraceData) (pw pf pb : Probe) : List SeriesView :=
  if td.months = [] then []
  else [⟨"Wheat", td.months, td.wheat, pw⟩, ⟨"Flour", td.months, td.flour, pf⟩,
        ⟨"Bread", td.months, td.bread, pb⟩]

/-! ## Marker creation (`main`, lines 97-108)

Python `sorted(events_by_label.items())` is a stable sort of the items by
Python tuple comparison; since the dict keys are distinct (proved below) it
only ever compares the label strings, by code points — the same lexicographic
order as Mathlib's `String` linear order. -/

def pairLe (p q : String × List Rat) : Bool := decide (p.1 ≤ q.1)

def ratLe (a b : Rat) : Bool := decide (a ≤ b)

/-- Python `sorted(events_by_label.items())` (line 98). -/
def sortPairs (m : List (String × List Rat)) : List (String × List Rat) :=
  m.mergeSort pairLe

/-- Python `sorted(times)` (line 100). -/
def sortTimes (ts : List Rat) : List Rat :=
  ts.mergeSort ratLe

/-- The `hover_events` creation order (lines 98-106): one marker per
occurrence, grouped by sorted label, times ascending within a label. -/
def buildMarkers (m : List (String × List Rat)) : List (String × Rat) :=
  (sortPairs m).flatMap (fun p => (sortTimes p.2).map (fun t => (p.1, t)))

/-- The legend stubs (line 108): the label followed by its parenthesized
occurrence count, one per label in sorted order. -/
def legendLabels (m : List (String × List Rat)) : List String :=
  (sortPairs m).map (fun p => p.1 ++ " (" ++ toString p.2.length ++ ")")

/-- The marker list handed to the hover resolver, in creation order, with this
event's hit flags attached. -/
def mainMarkers (m : List (String × List Rat)) (hits : String × Rat → Bool) :
    List MarkerView :=
  (buildMarkers m).map (fun p => ⟨hits p, p.1, p.2⟩)

/-! ## Events-file error handling (lines 24-29 and 88-96) -/

/-- An events CSV as opened: its header row and its parsed data rows. -/
structure EventsFile where
  fieldnames : List String
  rows : List EventRow

/-- Embedding of `read_events` (lines 24-42): the header check raises a
`SystemExit` carrying the missing-headers message (modelled as `Except.error`)
when either required header is missing; otherwise the row loop runs. -/
def read_events (f : EventsFile) : Except String (List (String × List Rat)) :=
  if "months" ∈ f.fieldnames ∧ "event" ∈ f.fieldnames then Except.ok (readEventsRows f.rows)
  else Except.error "Events CSV missing required headers months,event"

/-- Outcome of the events-overlay block of `main` (lines 88-96): either the
program is terminated by an uncaught `SystemExit`, or rendering proceeds with
the given overlay index. -/
inductive EventsOutcome
  | terminated (msg : String)
  | overlay (index : List (String × List Rat))
deriving DecidableEq

/-- The `--events` handling of `main` (lines 88-96).  `none` models an absent
`--events` flag; `some (Except.error e)` models a non-`SystemExit` exception
while opening or reading the file, which line 94's generic handler catches and
logs before falling back to an empty overlay; `some (Except.ok f)` models a
readable file handed to `read_events`, whose `SystemExit` is re-raised by
line 93 (`except SystemExit: raise`). -/
def handleEventsArg : Option (Except String EventsFile) → EventsOutcome
  | none => EventsOutcome.overlay []
  | some (Except.error _) => EventsOutcome.overlay []
  | some (Except.ok f) =>
    match read_events f with
    | Except.error msg => EventsOutcome.terminated msg
    | Except.ok m => EventsOutcome.overlay m

/-- The trace plot is rendered and saved (lines 97-182 run) iff `main` was not
terminated by the re-raised `SystemExit`. -/
def plotProduced : EventsOutcome → Bool
  | EventsOutcome.terminated _ => false
  | EventsOutcome.overlay _ => true

/-! ## Sanity checks on concrete inputs -/

example : normalize "MillGrind" = "Mill.Grind" := by decide

example : normalize "Mill.Grind" = "Mill..Grind" := by decide

example : normalize "Bakery(Bake(nested))" = "Bakery.Bake" := by decide

example : normalize "Farm(Harvest\x7bx:1\x7d)" = "Farm.Harvest" := by decide

example : normalize "Oven" = "Oven" := by decide

example : normalize ")x(c" = ")x.c" := by decide

example : pyFloat? "1.0" = some 1 := by decide

example : pyFloat? "2.5" = some (mkRat 5 2) := by decide

example : pyFloat? "oops" = none := by decide

example : pyInt? "13" = some 13 := by decide

example : pyInt? "-4" = some (-4) := by decide

example : pyInt? "x" = none := by decide

example : fmt3 1 = "1.000" := by decide

example : fmt3 (mkRat 5 2) = "2.500" := by decide

example : fmt3 (mkRat (-1) 8) = "-0.125" := by decide

example : fmt3 (mkRat 1 1000) = "0.001" := by decide

example : bisectLeft [0, 1, 2] 1 = 1 := by decide

example : bisectLeft [0, 1, 2] (mkRat 3 2) = 2 := by decide

/-! ## Helper lemmas about the string primitives -/

theorem contains_iff {l : List Char} {c : Char} : l.contains c = true ↔ c ∈ l := by
  simp [List.contains]

theorem ne_of_mem_beforeFirst {l : List Char} {c a : Char} (h : a ∈ beforeFirst l c) : a ≠ c := by
  rw [beforeFirst] at h
  have h2 := List.mem_takeWhile_imp h
  simpa using h2

theorem beforeFirst_cons_self (c : Char) (l : List Char) : beforeFirst (c :: l) c = [] := by
  simp [beforeFirst, List.takeWhile_cons]

theorem beforeFirst_cons_of_ne {a c : Char} (l : List Char) (h : a ≠ c) :
    beforeFirst (a :: l) c = a :: beforeFirst l c := by
  simp [beforeFirst, List.takeWhile_cons, h]

theorem afterFirst_cons_of_ne {a c : Char} (l : List Char) (h : a ≠ c) :
    afterFirst (a :: l) c = afterFirst l c := by
  simp [afterFirst, h]

theorem beforeFirst_append_afterFirst {l : List Char} {c : Char} (h : c ∈ l) :
    beforeFirst l c ++ c :: afterFirst l c = l := by
  induction l with
  | nil => cases h
  | cons a l ih =>
    by_cases hac : a = c
    · subst hac
      simp [beforeFirst_cons_self, afterFirst]
    · have hmem : c ∈ l := by
        rcases List.mem_cons.mp h with h1 | h1
        · exact absurd h1.symm hac
        · exact h1
      rw [beforeFirst_cons_of_ne l hac, afterFirst_cons_of_ne l hac]
      simpa using ih hmem

theorem takeWhile_takeWhile_eq (p q : Char → Bool) (l : List Char) :
    (l.takeWhile p).takeWhile q = l.takeWhile (fun a => p a && q a) := by
  induction l with
  | nil => rfl
  | cons a l ih =>
    cases hpa : p a
    · simp [List.takeWhile_cons, hpa]
    · cases hqa : q a
      · simp [List.takeWhile_cons, hpa, hqa]
      · simp [List.takeWhile_cons, hpa, hqa, ih]

/-- When some `)` occurs after the first `(`, the spec's between-reading of
`inner` agrees with the code's `split`/`rsplit` computation. -/
theorem specInner_eq_codeInner {s : List Char} (hp : '(' ∈ s)
    (hb : ')' ∈ afterFirst s '(') : specInner s = codeInner s := by
  set a := beforeFirst s '(' with hadef
  set b := afterFirst s '(' with hbdef
  have hs : a ++ '(' :: b = s := beforeFirst_append_afterFirst hp
  have hrb : ')' ∈ b.reverse := by simpa using hb
  have hsplit : beforeFirst b.reverse ')' ++ ')' :: afterFirst b.reverse ')' = b.reverse :=
    beforeFirst_append_afterFirst hrb
  set q := (beforeFirst b.reverse ')').reverse with hqdef
  set p := (afterFirst b.reverse ')').reverse with hpdef
  have hbpq : b = p ++ ')' :: q := by
    have h := congrArg List.reverse hsplit
    simpa [hqdef, hpdef] using h.symm
  have hqno : ∀ x ∈ q, x ≠ ')' := by
    intro x hx
    exact ne_of_mem_beforeFirst (by simpa [hqdef] using hx)
  have hfi : firstIdx s '(' = a.length := by rw [firstIdx, ← hadef]
  have hrev : s.reverse = q.reverse ++ ')' :: (p.reverse ++ '(' :: a.reverse) := by
    rw [← hs, hbpq]
    simp
  have hfir : firstIdx s.reverse ')' = q.length := by
    rw [firstIdx, hrev, beforeFirst, List.takeWhile_append_of_pos (by
      intro x hx
      simpa using hqno x (by simpa using hx))]
    simp [List.takeWhile_cons]
  have hlen : s.length = a.length + 1 + (p.length + 1 + q.length) := by
    rw [← hs, hbpq]; simp; omega
  have hli : lastIdx s ')' = a.length + 1 + p.length := by
    rw [lastIdx, hfir]; omega
  rw [specInner, hfi, hli]
  have h1 : s.take (a.length + 1 + p.length) = a ++ '(' :: p := by
    conv_lhs => rw [← hs, hbpq]
    rw [show a ++ '(' :: (p ++ ')' :: q) = (a ++ '(' :: p) ++ ')' :: q by simp]
    exact List.take_left' (by simp; omega)
  have h2 : (a ++ '(' :: p).drop (a.length + 1) = p := by
    rw [show a ++ '(' :: p = (a ++ ['(']) ++ p by simp]
    exact List.drop_left' (by simp)
  rw [h1, h2, codeInner, ← hbdef, beforeLastOrAll, if_pos (contains_iff.mpr hb), ← hpdef]

/-- When no `)` occurs after the first `(`, the spec's between-reading of
`inner` is empty. -/
theorem specInner_eq_nil {s : List Char} (hp : '(' ∈ s)
    (hb : ')' ∉ afterFirst s '(') : specInner s = [] := by
  set a := beforeFirst s '(' with hadef
  set b := afterFirst s '(' with hbdef
  have hs : a ++ '(' :: b = s := beforeFirst_append_afterFirst hp
  have hfi : firstIdx s '(' = a.length := by rw [firstIdx, ← hadef]
  have hbno : ∀ x ∈ b.reverse, (x != ')') = true := by
    intro x hx
    have : x ∈ b := by simpa using hx
    simp only [bne_iff_ne, ne_eq]
    rintro rfl
    exact hb this
  have h1 : b.length + 1 ≤ firstIdx s.reverse ')' := by
    have hrev : (a ++ '(' :: b).reverse = b.reverse ++ '(' :: a.reverse := by simp
    rw [firstIdx, ← hs, hrev, beforeFirst, List.takeWhile_append_of_pos hbno]
    simp [List.takeWhile_cons]
  have hlen : s.length = a.length + 1 + b.length := by
    rw [← hs]; simp; omega
  have h2 : lastIdx s ')' ≤ a.length := by
    rw [lastIdx]; omega
  rw [specInner]
  apply List.drop_eq_nil_of_le
  have h3 : (s.take (lastIdx s ')')).length ≤ lastIdx s ')' := by
    simp [List.length_take]
  omega

/-- A non-empty spec-read `variant` forces a `)` after the first `(`, and then
the spec-read `variant` agrees with the code's. -/
theorem specVariant_eq_codeVariant {s : List Char} (hp : '(' ∈ s)
    (hv : specVariant s ≠ []) : specVariant s = codeVariant s := by
  by_cases hb : ')' ∈ afterFirst s '('
  · rw [specVariant, codeVariant, specInner_eq_codeInner hp hb, beforeFirst, beforeFirst,
      takeWhile_takeWhile_eq]
  · exact absurd (by rw [specVariant, specInner_eq_nil hp hb]; rfl) hv

theorem fallbackActors_eq_specRecognized (head : List Char) (l : List (List Char)) :
    fallbackActors head l = specRecognized head l := by
  induction l with
  | nil => rfl
  | cons a rest ih => rw [fallbackActors, specRecognized, ih]

theorem codeHead_eq_specFallbackHead (s : List Char) : codeHead s = specFallbackHead s := by
  rw [codeHead, specFallbackHead, beforeFirst, beforeFirst, takeWhile_takeWhile_eq]

/-- C2: for inputs containing both `(` and `)`, with `actor` the trimmed
substring before the first `(`, `inner` the substring between the first `(`
and the last `)`, and `variant` the trimmed portion of `inner` before the
leftmost of its first `{` or `(`: whenever `actor` and `variant` are both
non-empty, `normalize` returns the actor, a dot, and the variant; in
particular `normalize "Bakery(Bake(nested))" = "Bakery.Bake"` and
`normalize "Farm(Harvest{x:1})" = "Farm.Harvest"`. -/
theorem c2_normalize_paren_path (label : String) (s : List Char) (hs : s = pyStrip label.data)
    (hp : '(' ∈ s) (hq : ')' ∈ s)
    (ha : specActor s ≠ []) (hv : specVariant s ≠ []) :
    normalize label = String.mk (specActor s ++ '.' :: specVariant s) ∧
      normalize "Bakery(Bake(nested))" = "Bakery.Bake" ∧
      normalize "Farm(Harvest\x7bx:1\x7d)" = "Farm.Harvest" := by
  refine ⟨?_, by decide, by decide⟩
  have hvc : specVariant s = codeVariant s := specVariant_eq_codeVariant hp hv
  have hac : specActor s = codeActor s := rfl
  rw [normalize, normalizeCore, ← hs,
    if_pos ⟨contains_iff.mpr hp, contains_iff.mpr hq⟩,
    if_pos ⟨fun h => ha (hac ▸ h), fun h => hv (by rw [hvc, h])⟩,
    hac, hvc]

theorem c2_witness :
    ('(' ∈ pyStrip "Farm(Sow)".data) ∧
      Dessert.normalize "Farm(Sow)" =
        String.mk (specActor (pyStrip "Farm(Sow)".data) ++
          '.' :: specVariant (pyStrip "Farm(Sow)".data)) :=
  ⟨by decide,
    (c2_normalize_paren_path "Farm(Sow)" (pyStrip "Farm(Sow)".data) rfl (by decide) (by decide)
      (by decide) (by decide)).1⟩

/-- C3: on the fallback path (no `(`/`)` pair, or the parenthesized pattern
yields an empty actor or variant), the result is obtained from
`head` (the trimmed portion before the leftmost of the first `{` or `(`) by
the recognized-actor loop over Farm, Mill, Bakery in order; in particular
`normalize "MillGrind" = "Mill.Grind"` and `normalize "Oven" = "Oven"`. -/
theorem c3_normalize_fallback_path (label : String) (s : List Char) (hs : s = pyStrip label.data)
    (hfb : ¬(('(' ∈ s ∧ ')' ∈ s) ∧ codeActor s ≠ [] ∧ codeVariant s ≠ [])) :
    normalize label =
        String.mk (specRecognized (specFallbackHead s) ["Farm".data, "Mill".data, "Bakery".data]) ∧
      normalize "MillGrind" = "Mill.Grind" ∧ normalize "Oven" = "Oven" := by
  refine ⟨?_, by decide, by decide⟩
  rw [normalize, normalizeCore, ← hs]
  by_cases hpq : s.contains '(' = true ∧ s.contains ')' = true
  · rw [if_pos hpq]
    have hav : ¬(codeActor s ≠ [] ∧ codeVariant s ≠ []) := by
      intro hcontra
      exact hfb ⟨⟨contains_iff.mp hpq.1, contains_iff.mp hpq.2⟩, hcontra⟩
    rw [if_neg hav, fallbackActors_eq_specRecognized, codeHead_eq_specFallbackHead, actorNames]
  · rw [if_neg hpq, fallbackActors_eq_specRecognized, codeHead_eq_specFallbackHead, actorNames]

theorem c3_witness :
    Dessert.normalize "Oven" =
      String.mk (specRecognized (specFallbackHead (pyStrip "Oven".data))
        ["Farm".data, "Mill".data, "Bakery".data]) :=
  (c3_normalize_fallback_path "Oven" (pyStrip "Oven".data) rfl (by decide)).1

/-- C9: the normalizer is not idempotent; `normalize "MillGrind" = "Mill.Grind"`
but `normalize "Mill.Grind" = "Mill..Grind"`, so re-normalizing changes the
result. -/
theorem c9_normalize_not_idempotent :
    normalize "MillGrind" = "Mill.Grind" ∧ normalize "Mill.Grind" = "Mill..Grind" ∧
      normalize (normalize "MillGrind") ≠ normalize "MillGrind" := by
  refine ⟨by decide, by decide, ?_⟩
  decide

/-! ## Trace-loader lemmas and claim C4 -/

theorem loadTraceStep_eq (acc : TraceData) (row : TraceRow) :
    loadTraceStep acc row =
      match parseTraceRow row with
      | some (t, w, fl, br) =>
        ⟨acc.months ++ [t], acc.wheat ++ [w], acc.flour ++ [fl], acc.bread ++ [br]⟩
      | none => acc := by
  rw [loadTraceStep, parseTraceRow]
  cases pyFloat? row.months <;> cases pyInt? row.wheat <;> cases pyInt? row.flour <;>
    cases pyInt? row.bread <;> rfl

theorem loadTrace_foldl (rows : List TraceRow) : ∀ acc : TraceData,
    rows.foldl loadTraceStep acc =
      ⟨acc.months ++ (traceSamples rows).map (fun x => x.1),
       acc.wheat ++ (traceSamples rows).map (fun x => x.2.1),
       acc.flour ++ (traceSamples rows).map (fun x => x.2.2.1),
       acc.bread ++ (traceSamples rows).map (fun x => x.2.2.2)⟩ := by
  induction rows with
  | nil => intro acc; simp [traceSamples]
  | cons r rows ih =>
    intro acc
    rw [List.foldl_cons, loadTraceStep_eq]
    cases hr : parseTraceRow r with
    | none => rw [ih]; simp [traceSamples, List.filterMap_cons, hr]
    | some v =>
      obtain ⟨t, w, fl, br⟩ := v
      rw [ih]; simp [traceSamples, List.filterMap_cons, hr]

/-- C4: the trace loader returns four parallel equal-length sequences holding
exactly the rows in which `months` parses as a float and `wheat`, `flour`,
`bread` parse as integers, in original row order; a malformed row is dropped
entirely, so five rows with one malformed yield exactly four samples. -/
theorem c4_trace_loader (rows : List TraceRow) :
    loadTrace rows =
        ⟨(traceSamples rows).map (fun x => x.1),
         (traceSamples rows).map (fun x => x.2.1),
         (traceSamples rows).map (fun x => x.2.2.1),
         (traceSamples rows).map (fun x => x.2.2.2)⟩ ∧
      (loadTrace rows).months.length = (traceSamples rows).length ∧
      (loadTrace rows).wheat.length = (traceSamples rows).length ∧
      (loadTrace rows).flour.length = (traceSamples rows).length ∧
      (loadTrace rows).bread.length = (traceSamples rows).length ∧
      exampleTraceRows.length = 5 ∧
      loadTrace exampleTraceRows =
        ⟨[0, 1, 3, 4], [10, 11, 13, 14], [5, 6, 8, 9], [2, 3, 5, 6]⟩ ∧
      (traceSamples exampleTraceRows).length = 4 := by
  have h : loadTrace rows =
      ⟨(traceSamples rows).map (fun x => x.1),
       (traceSamples rows).map (fun x => x.2.1),
       (traceSamples rows).map (fun x => x.2.2.1),
       (traceSamples rows).map (fun x => x.2.2.2)⟩ := by
    rw [loadTrace, loadTrace_foldl rows]
    simp
  refine ⟨h, ?_, ?_, ?_, ?_, by decide, by decide, by decide⟩ <;> rw [h] <;> simp

/-! ## Events-loader lemmas and claim C5 -/

theorem lookupTimes_insertTime (m : List (String × List Rat)) (k k₀ : String) (t : Rat) :
    lookupTimes (insertTime m k t) k₀ =
      if k = k₀ then some ((lookupTimes m k).getD [] ++ [t]) else lookupTimes m k₀ := by
  induction m with
  | nil =>
    by_cases h : k = k₀ <;> simp [insertTime, lookupTimes, h]
  | cons p rest ih =>
    obtain ⟨k₁, ts⟩ := p
    by_cases h1 : k₁ = k
    · subst h1
      by_cases h2 : k₁ = k₀
      · subst h2; simp [insertTime, lookupTimes]
      · have h3 : ¬ k₀ = k₁ := fun h => h2 h.symm
        simp [insertTime, lookupTimes, h2, h3]
    · by_cases h2 : k₁ = k₀
      · subst h2
        have h3 : ¬ k = k₁ := fun h => h1 h.symm
        simp [insertTime, lookupTimes, h1, h3]
      · simp [insertTime, lookupTimes, h1, h2, ih]

theorem readEvents_foldl (rows : List EventRow) : ∀ (m : List (String × List Rat)) (k : String),
    lookupTimes (rows.foldl readEventsStep m) k =
      match lookupTimes m k with
      | some ts => some (ts ++ eventTimes rows k)
      | none => if eventTimes rows k = [] then none else some (eventTimes rows k) := by
  induction rows with
  | nil =>
    intro m k
    cases h : lookupTimes m k <;> simp [eventTimes, h]
  | cons r rows ih =>
    intro m k
    rw [List.foldl_cons, readEventsStep]
    cases hf : pyFloat? r.months with
    | none =>
      rw [ih]
      have he : eventTimes (r :: rows) k = eventTimes rows k := by
        simp [eventTimes, List.filterMap_cons, hf]
      rw [he]
    | some t =>
      rw [ih]
      by_cases hk : rowKey r = k
      · have he : eventTimes (r :: rows) k = t :: eventTimes rows k := by
          simp [eventTimes, List.filterMap_cons, hf, hk]
        rw [he, lookupTimes_insertTime, if_pos hk]
        cases hm : lookupTimes m k <;> simp [hk, hm]
      · have he : eventTimes (r :: rows) k = eventTimes rows k := by
          simp [eventTimes, List.filterMap_cons, hf, hk]
        rw [he, lookupTimes_insertTime, if_neg hk]

/-- C5: the events loader maps each normalized label to the ordered sequence of
occurrence times in CSV row order, keeping duplicates, and silently drops rows
whose `months` does not parse; in particular two `months=1.0,event=Farm(Sow{})`
rows yield the entry `[1.0, 1.0]` under the key `"Farm.Sow"`. -/
theorem c5_events_loader (rows : List EventRow) (k : String) :
    lookupTimes (readEventsRows rows) k =
        (if eventTimes rows k = [] then none else some (eventTimes rows k)) ∧
      lookupTimes (readEventsRows exampleEventRows) "Farm.Sow" = some [1, 1] ∧
      eventTimes exampleEventRows "Farm.Sow" = [1, 1] := by
  refine ⟨?_, by decide, by decide⟩
  rw [readEventsRows, readEvents_foldl rows [] k, lookupTimes]

/-! ## Hover-resolver lemmas and claims C6, C7, C8 -/

theorem find?_eq_of_prefix_misses {α : Type} (p : α → Bool) (l₁ l₂ : List α)
    (h : ∀ x ∈ l₁, p x = false) : (l₁ ++ l₂).find? p = l₂.find? p := by
  induction l₁ with
  | nil => rfl
  | cons a l ih =>
    rw [List.cons_append, List.find?_cons_of_neg _ (by simp [h a (List.mem_cons_self a l)]),
      ih (fun x hx => h x (List.mem_cons_of_mem a hx))]

/-- C6: with the three series laid out in the fixed order Wheat, Flour, Bread,
the resolver takes the first series hit, the tooltip update is then
independent of the markers and the prior tooltip state, and markers are
probed (in creation order, first hit wins) only when no series hit. -/
theorem c6_hover_priority (td : TraceData) (pw pf pb : Probe) (ev : MoveEvent)
    (markers : List MarkerView) (annot : Annot)
    (hin : ev.inaxes = true) (hm : td.months ≠ []) :
    (pw.hit = true →
      onMove ev (mainLines td pw pf pb) markers annot =
        (seriesAnnot ⟨"Wheat", td.months, td.wheat, pw⟩ ev, true)) ∧
    (pw.hit = false → pf.hit = true →
      onMove ev (mainLines td pw pf pb) markers annot =
        (seriesAnnot ⟨"Flour", td.months, td.flour, pf⟩ ev, true)) ∧
    (pw.hit = false → pf.hit = false → pb.hit = true →
      onMove ev (mainLines td pw pf pb) markers annot =
        (seriesAnnot ⟨"Bread", td.months, td.bread, pb⟩ ev, true)) ∧
    ((pw.hit || pf.hit || pb.hit) = true → ∀ (markers₂ : List MarkerView) (annot₂ : Annot),
      onMove ev (mainLines td pw pf pb) markers annot =
        onMove ev (mainLines td pw pf pb) markers₂ annot₂) ∧
    (pw.hit = false → pf.hit = false → pb.hit = false →
      ∀ ms₁ m ms₂, markers = ms₁ ++ m :: ms₂ → (∀ x ∈ ms₁, x.hit = false) → m.hit = true →
        onMove ev (mainLines td pw pf pb) markers annot = (markerAnnot m ev, true)) := by
  refine ⟨?_, ?_, ?_, ?_, ?_⟩
  · intro h
    simp [onMove, hin, mainLines, hm, firstSeriesHit, List.find?_cons, h]
  · intro h1 h2
    simp [onMove, hin, mainLines, hm, firstSeriesHit, List.find?_cons, h1, h2]
  · intro h1 h2 h3
    simp [onMove, hin, mainLines, hm, firstSeriesHit, List.find?_cons, h1, h2, h3]
  · intro h markers₂ annot₂
    rcases Bool.or_eq_true_iff.mp h with h1 | h1
    · rcases Bool.or_eq_true_iff.mp h1 with h2 | h2
      · simp [onMove, hin, mainLines, hm, firstSeriesHit, List.find?_cons, h2]
      · cases hw : pw.hit <;>
          simp [onMove, hin, mainLines, hm, firstSeriesHit, List.find?_cons, hw, h2]
    · cases hw : pw.hit <;> cases hf : pf.hit <;>
        simp [onMove, hin, mainLines, hm, firstSeriesHit, List.find?_cons, hw, hf, h1]
  · intro h1 h2 h3 ms₁ m ms₂ hmk hmiss hmhit
    subst hmk
    rw [onMove]
    simp only [hin]
    have hser : firstSeriesHit (mainLines td pw pf pb) = none := by
      simp [mainLines, hm, firstSeriesHit, List.find?_cons, h1, h2, h3]
    rw [hser]
    have hmk2 : firstMarkerHit (ms₁ ++ m :: ms₂) = some m := by
      rw [firstMarkerHit, find?_eq_of_prefix_misses _ _ _ hmiss, List.find?_cons_of_pos _ hmhit]
    simp [hmk2]

theorem c6_witness :
    onMove ⟨true, 0, 0⟩ (mainLines ⟨[0, 1], [2, 3], [4, 5], [6, 7]⟩ ⟨true, [0]⟩ ⟨false, []⟩
        ⟨false, []⟩) [] ⟨false, (0, 0), ""⟩ =
      (seriesAnnot ⟨"Wheat", [0, 1], [2, 3], ⟨true, [0]⟩⟩ ⟨true, 0, 0⟩, true) :=
  (c6_hover_priority ⟨[0, 1], [2, 3], [4, 5], [6, 7]⟩ ⟨true, [0]⟩ ⟨false, []⟩ ⟨false, []⟩
    ⟨true, 0, 0⟩ [] ⟨false, (0, 0), ""⟩ rfl (by decide)).1 rfl

/-- C7: on a series hit the displayed index is the facility-reported one when
available, otherwise `clamp(bisect_left(xs, pointer_x), 0, n-1)`; the tooltip
is anchored at that sample's exact `(t, value)` with the series name, the
value, and the time to three decimals as text; in particular a pointer exactly
at a sample's coordinates anchors at that sample, not an interpolated point. -/
theorem c7_hover_series_sample (ev : MoveEvent) (lines : List SeriesView)
    (markers : List MarkerView) (annot : Annot) (s : SeriesView)
    (hin : ev.inaxes = true) (hs : firstSeriesHit lines = some s) :
    (∀ i rest, s.probe.inds = i :: rest → hitIndex s ev = i) ∧
    (s.probe.inds = [] → s.xd ≠ [] →
      hitIndex s ev = min (s.xd.length - 1) (bisectLeft s.xd ev.xdata)) ∧
    (onMove ev lines markers annot).1 = seriesAnnot s ev ∧
    (onMove ev lines markers annot).1.xy =
      (s.xd.getD (hitIndex s ev) 0, (s.yd.getD (hitIndex s ev) 0 : Rat)) ∧
    (onMove ev lines markers annot).1.text =
      s.label ++ ": " ++ toString (s.yd.getD (hitIndex s ev) 0) ++ "\n@ t=" ++
        fmt3 (s.xd.getD (hitIndex s ev) 0) ∧
    (onMove ev lines markers annot).1.visible = true ∧
    (onMove ⟨true, 1, 5⟩ [⟨"Wheat", [0, 1, 2], [10, 11, 12], ⟨true, []⟩⟩] []
      ⟨false, (0, 0), ""⟩).1.xy = (1, 11) := by
  have hA : (onMove ev lines markers annot).1 = seriesAnnot s ev := by
    rw [onMove]; simp [hin, hs]
  refine ⟨?_, ?_, hA, ?_, ?_, ?_, ?_⟩
  · intro i rest h; rw [hitIndex, h]
  · intro h hne
    rw [hitIndex, h]
    simp only [List.length_eq_zero]
    rw [if_neg hne]
  · rw [hA]; rfl
  · rw [hA]; rfl
  · rw [hA]; rfl
  · decide

theorem c7_witness :
    (onMove ⟨true, mkRat 3 2, 0⟩ [⟨"Bread", [0, 1, 2], [7, 8, 9], ⟨true, []⟩⟩] []
        ⟨false, (0, 0), ""⟩).1 =
      seriesAnnot ⟨"Bread", [0, 1, 2], [7, 8, 9], ⟨true, []⟩⟩ ⟨true, mkRat 3 2, 0⟩ :=
  (c7_hover_series_sample ⟨true, mkRat 3 2, 0⟩ [⟨"Bread", [0, 1, 2], [7, 8, 9], ⟨true, []⟩⟩]
    [] ⟨false, (0, 0), ""⟩ ⟨"Bread", [0, 1, 2], [7, 8, 9], ⟨true, []⟩⟩ rfl (by decide)).2.2.1

/-- C8: when the pointer is outside the axes or misses every series and every
marker, no tooltip is produced: a visible tooltip is hidden exactly once (with
a redraw), a hidden one is left untouched with no redraw, and a second no-hit
event after the first changes nothing and requests no redraw. -/
theorem c8_hover_no_hit (ev : MoveEvent) (lines : List SeriesView)
    (markers : List MarkerView) (annot : Annot)
    (h : ev.inaxes = false ∨
      ((∀ s ∈ lines, s.probe.hit = false) ∧ ∀ m ∈ markers, m.hit = false)) :
    (onMove ev lines markers annot).1.visible = false ∧
    (annot.visible = true →
      onMove ev lines markers annot = ({ annot with visible := false }, true)) ∧
    (annot.visible = false → onMove ev lines markers annot = (annot, false)) ∧
    onMove ev lines markers (onMove ev lines markers annot).1 =
      ((onMove ev lines markers annot).1, false) := by
  have key : ∀ a : Annot, onMove ev lines markers a =
      if a.visible then ({ a with visible := false }, true) else (a, false) := by
    intro a
    rcases h with h | ⟨hl, hmk⟩
    · rw [onMove, if_pos h]
    · have hser : firstSeriesHit lines = none := by
        rw [firstSeriesHit, List.find?_eq_none]
        intro x hx
        simp [hl x hx]
      have hmk2 : firstMarkerHit markers = none := by
        rw [firstMarkerHit, List.find?_eq_none]
        intro x hx
        simp [hmk x hx]
      rw [onMove]
      cases hin : ev.inaxes
      · cases hv : a.visible <;> simp
      · simp only [hser, hmk2]
        cases hv : a.visible <;> simp
  have h1 := key annot
  refine ⟨?_, ?_, ?_, ?_⟩
  · rw [h1]; cases hv : annot.visible <;> simp [hv]
  · intro hv; rw [h1, if_pos hv]
  · intro hv; simp [h1, hv]
  · rw [key ((onMove ev lines markers annot).1)]
    have hv : (onMove ev lines markers annot).1.visible = false := by
      rw [h1]; cases hv2 : annot.visible <;> simp [hv2]
    rw [hv]
    simp

theorem c8_witness :
    onMove ⟨false, 0, 0⟩ [] [] ⟨true, (0, 0), "tip"⟩ =
      ({ visible := false, xy := (0, 0), text := "tip" }, true) :=
  (c8_hover_no_hit ⟨false, 0, 0⟩ [] [] ⟨true, (0, 0), "tip"⟩ (Or.inl rfl)).2.1 rfl

/-! ## Marker-creation lemmas and claim C10 -/

theorem lookupTimes_eq_some_mem {m : List (String × List Rat)} {k : String} {ts : List Rat}
    (h : lookupTimes m k = some ts) : (k, ts) ∈ m := by
  induction m with
  | nil => cases h
  | cons p rest ih =>
    obtain ⟨k₁, ts₁⟩ := p
    rw [lookupTimes] at h
    by_cases hk : k₁ = k
    · subst hk
      rw [if_pos rfl] at h
      obtain rfl : ts₁ = ts := Option.some.inj h
      exact List.mem_cons_self _ _
    · rw [if_neg hk] at h
      exact List.mem_cons_of_mem _ (ih h)

theorem mem_keys_insertTime {m : List (String × List Rat)} {k k₀ : String} {t : Rat} :
    k₀ ∈ (insertTime m k t).map Prod.fst ↔ k₀ ∈ m.map Prod.fst ∨ k₀ = k := by
  induction m with
  | nil => simp [insertTime]
  | cons p rest ih =>
    obtain ⟨k₁, ts⟩ := p
    by_cases h : k₁ = k
    · subst h
      simp [insertTime]
      tauto
    · simp [insertTime, h, ih]
      tauto

theorem nodup_keys_insertTime {m : List (String × List Rat)} {k : String} {t : Rat}
    (h : (m.map Prod.fst).Nodup) : ((insertTime m k t).map Prod.fst).Nodup := by
  induction m with
  | nil => simp [insertTime]
  | cons p rest ih =>
    obtain ⟨k₁, ts⟩ := p
    simp only [List.map_cons, List.nodup_cons] at h
    obtain ⟨hk₁, hrest⟩ := h
    by_cases hek : k₁ = k
    · subst hek
      simp [insertTime, List.nodup_cons, hk₁, hrest]
    · rw [insertTime, if_neg hek]
      simp only [List.map_cons, List.nodup_cons]
      refine ⟨?_, ih hrest⟩
      rw [mem_keys_insertTime]
      rintro (h | h)
      · exact hk₁ h
      · exact hek h

theorem nodup_keys_readEvents (rows : List EventRow) :
    ∀ m, (m.map Prod.fst).Nodup → ((rows.foldl readEventsStep m).map Prod.fst).Nodup := by
  induction rows with
  | nil => intro m h; exact h
  | cons r rows ih =>
    intro m h
    rw [List.foldl_cons, readEventsStep]
    cases pyFloat? r.months
    · exact ih m h
    · exact ih _ (nodup_keys_insertTime h)

theorem sortTimes_pairwise (ts : List Rat) : (sortTimes ts).Pairwise (fun a b => a ≤ b) := by
  have h := @List.sorted_mergeSort Rat ratLe
    (fun a b c hab hbc =>
      decide_eq_true (le_trans (of_decide_eq_true hab) (of_decide_eq_true hbc)))
    (fun a b => by rcases le_total a b with h | h <;> simp [ratLe, h])
    ts
  exact h.imp (fun hab => of_decide_eq_true hab)

theorem sortPairs_pairwise (m : List (String × List Rat)) :
    (sortPairs m).Pairwise (fun p q => p.1 ≤ q.1) := by
  have h := @List.sorted_mergeSort (String × List Rat) pairLe
    (fun a b c hab hbc =>
      decide_eq_true (le_trans (of_decide_eq_true hab) (of_decide_eq_true hbc)))
    (fun a b => by rcases le_total a.1 b.1 with h | h <;> simp [pairLe, h])
    m
  exact h.imp (fun hab => of_decide_eq_true hab)

theorem sortPairs_keys_strict {m : List (String × List Rat)}
    (hnd : (m.map Prod.fst).Nodup) :
    ((sortPairs m).map Prod.fst).Pairwise (fun a b => a < b) := by
  have hperm : List.Perm (sortPairs m) m := List.mergeSort_perm m pairLe
  have hnd2 : ((sortPairs m).map Prod.fst).Nodup :=
    ((hperm.map Prod.fst).nodup_iff).mpr hnd
  have hle : ((sortPairs m).map Prod.fst).Pairwise (fun a b => a ≤ b) := by
    rw [List.pairwise_map]
    exact sortPairs_pairwise m
  exact (hle.and hnd2).imp (fun h => lt_of_le_of_ne h.1 h.2)

theorem buildMarkers_pairwise {m : List (String × List Rat)}
    (hnd : (m.map Prod.fst).Nodup) :
    (buildMarkers m).Pairwise (fun p q => p.1 ≤ q.1 ∧ (p.1 = q.1 → p.2 ≤ q.2)) := by
  rw [buildMarkers, List.pairwise_flatMap]
  constructor
  · intro p _
    rw [List.pairwise_map]
    exact (sortTimes_pairwise p.2).imp (fun hab => ⟨le_refl _, fun _ => hab⟩)
  · have hstrict := sortPairs_keys_strict hnd
    rw [List.pairwise_map] at hstrict
    refine hstrict.imp ?_
    intro p q hpq x hx y hy
    obtain ⟨tx, _, rfl⟩ := List.mem_map.mp hx
    obtain ⟨ty, _, rfl⟩ := List.mem_map.mp hy
    exact ⟨le_of_lt hpq, fun he => absurd he (ne_of_lt hpq)⟩

/-- C10: over any loaded EventIndex, markers are created grouped by label in
ascending (code-point lexicographic) label order — strictly ascending across
the distinct labels — with times ascending within a label; the hover
resolver's marker list is exactly this creation order; and each label's legend
entry is the label followed by its parenthesized count of occurrences among
the parsed rows. -/
theorem c10_marker_order_and_legend (rows : List EventRow) :
    (buildMarkers (readEventsRows rows)).Pairwise
        (fun p q => p.1 ≤ q.1 ∧ (p.1 = q.1 → p.2 ≤ q.2)) ∧
      ((sortPairs (readEventsRows rows)).map Prod.fst).Pairwise (fun a b => a < b) ∧
      (∀ hits : String × Rat → Bool,
        (mainMarkers (readEventsRows rows) hits).map (fun v => (v.label, v.t)) =
          buildMarkers (readEventsRows rows)) ∧
      (∀ k ts, lookupTimes (readEventsRows rows) k = some ts →
        (k ++ " (" ++ toString ts.length ++ ")") ∈ legendLabels (readEventsRows rows) ∧
          ts = eventTimes rows k) := by
  have hnd : ((readEventsRows rows).map Prod.fst).Nodup :=
    nodup_keys_readEvents rows [] (by simp)
  refine ⟨buildMarkers_pairwise hnd, sortPairs_keys_strict hnd, ?_, ?_⟩
  · intro hits
    rw [mainMarkers, List.map_map]
    have hcomp : ((fun v : MarkerView => (v.label, v.t)) ∘
        fun p : String × Rat => (⟨hits p, p.1, p.2⟩ : MarkerView)) = id := by
      funext p
      rfl
    rw [hcomp, List.map_id]
  · intro k ts h
    have hmem : (k, ts) ∈ readEventsRows rows := lookupTimes_eq_some_mem h
    refine ⟨List.mem_map.mpr ⟨(k, ts), List.mem_mergeSort.mpr hmem, rfl⟩, ?_⟩
    have h2 := readEvents_foldl rows [] k
    rw [readEventsRows] at h
    rw [h, lookupTimes] at h2
    by_cases he : eventTimes rows k = []
    · rw [if_pos he] at h2
      cases h2
    · rw [if_neg he] at h2
      exact Option.some.inj h2

/-! ## Events-file error handling: claim C1 -/

/-- C1 counterexample: a present, readable events file whose header lacks
`event` makes `read_events` raise `SystemExit`, which `main` re-raises — the
program terminates and the trace plot is NOT produced, contrary to the claim
that every such events file still yields the plot with no overlay. -/
theorem c1_counterexample :
    handleEventsArg (some (Except.ok ⟨["months"], []⟩)) =
        EventsOutcome.terminated "Events CSV missing required headers months,event" ∧
      plotProduced (handleEventsArg (some (Except.ok ⟨["months"], []⟩))) = false := by
  constructor <;> decide

/-- C1 amended: when the events CSV is present and readable but missing a
required header, `read_events` raises `SystemExit`, `main` re-raises it, and
the program terminates without producing the trace plot; only non-`SystemExit`
failures while reading the events file (e.g. an unreadable path) are caught,
logged, and degrade to rendering the plot with no events overlay. -/
theorem c1_events_header_error_terminates (f : EventsFile)
    (h : "months" ∉ f.fieldnames ∨ "event" ∉ f.fieldnames) :
    handleEventsArg (some (Except.ok f)) =
        EventsOutcome.terminated "Events CSV missing required headers months,event" ∧
      plotProduced (handleEventsArg (some (Except.ok f))) = false ∧
      (∀ msg, handleEventsArg (some (Except.error msg)) = EventsOutcome.overlay [] ∧
        plotProduced (handleEventsArg (some (Except.error msg))) = true) := by
  have hr : read_events f = Except.error "Events CSV missing required headers months,event" := by
    rw [read_events, if_neg]
    rintro ⟨h1, h2⟩
    rcases h with h | h
    · exact h h1
    · exact h h2
  refine ⟨?_, ?_, ?_⟩
  · simp [handleEventsArg, hr]
  · simp [handleEventsArg, hr, plotProduced]
  · intro msg
    exact ⟨rfl, rfl⟩

theorem c1_witness :
    handleEventsArg (some (Except.ok ⟨["months", "extra"], []⟩)) =
      EventsOutcome.terminated "Events CSV missing required headers months,event" :=
  (c1_events_header_error_terminates ⟨["months", "extra"], []⟩ (Or.inr (by decide))).1

end Dessert
